import Mathlib

/-!
Shallow embedding of the FCL container-loading engine
(`streamlit_app.py`: classes `Item`, `Container`, `BinPacker`).

Python numbers are modelled as `Int`; Python exceptions (`KeyError` from the
orientation-dictionary lookup, unpacking a `None` position) are modelled by
`Option`, with `none` denoting a raised exception.  Mutation of `Item` and
`Container` objects is modelled by explicit state passing: functions return the
updated record.  `pack` returns, besides the Python return value (the
container), the final states of the expanded unit items in processing order —
in Python those states are observable through the aliased objects mutated by
`set_orientation` and `add_item`.
-/

/-- Embedding of the Python class `Item`.  `position`/`rotation` start as
`None`; dimensions and weight are integers. -/
structure Item where
  name : String
  item_type : String
  original_dims : Int × Int × Int
  length : Int
  width : Int
  height : Int
  weight : Int
  quantity : Int
  orientation_preference : List String
  fragile : Bool
  can_stack : Bool
  can_stack_same_type : Bool
  position : Option (Int × Int × Int)
  rotation : Option String
  color : String
deriving Repr, DecidableEq

/-- Embedding of `Item.__init__`.  The Python default-argument idiom
`orientation_preference or ["lwh"]` replaces both `None` and the empty list by
`["lwh"]`. -/
def Item.init (name : String) (length width height weight : Int) (quantity : Int)
    (orientation_preference : Option (List String)) (fragile : Bool)
    (can_stack : Bool) (can_stack_same_type : Bool)
    (item_type : String) (color : String) : Item :=
  { name := name
    item_type := item_type
    original_dims := (length, width, height)
    length := length
    width := width
    height := height
    weight := weight
    quantity := quantity
    orientation_preference :=
      match orientation_preference with
      | none => ["lwh"]
      | some l => if l = [] then ["lwh"] else l
    fragile := fragile
    can_stack := can_stack
    can_stack_same_type := can_stack_same_type
    position := none
    rotation := none
    color := color }

/-- Embedding of `Item.get_dimensions`: the dictionary lookup over the six
orientation codes; an unknown code raises `KeyError` (`none`). -/
def Item.get_dimensions (it : Item) (orientation : String) : Option (Int × Int × Int) :=
  let l := it.original_dims.1
  let w := it.original_dims.2.1
  let h := it.original_dims.2.2
  if orientation = "lwh" then some (l, w, h)
  else if orientation = "lhw" then some (l, h, w)
  else if orientation = "wlh" then some (w, l, h)
  else if orientation = "whl" then some (w, h, l)
  else if orientation = "hlw" then some (h, l, w)
  else if orientation = "hwl" then some (h, w, l)
  else none

/-- Embedding of `Item.set_orientation`: overwrites the active dimension triple
from `get_dimensions` and records the code; does not touch `position`. -/
def Item.set_orientation (it : Item) (orientation : String) : Option Item :=
  (it.get_dimensions orientation).map fun d =>
    { it with length := d.1, width := d.2.1, height := d.2.2, rotation := some orientation }

/-- Embedding of `Item.get_volume`: product of the three nominal dimensions. -/
def Item.get_volume (it : Item) : Int :=
  it.original_dims.1 * it.original_dims.2.1 * it.original_dims.2.2

/-- Embedding of the Python class `Container`. -/
structure Container where
  length : Int
  width : Int
  height : Int
  max_weight : Int
  items : List Item
  current_weight : Int
deriving Repr, DecidableEq

/-- Embedding of `Container.__init__`. -/
def Container.init (length width height max_weight : Int) : Container :=
  { length := length, width := width, height := height, max_weight := max_weight
    items := [], current_weight := 0 }

/-- Embedding of `Container.check_overlap` (the `self` argument is unused in
the source as well).  Unpacking `other.position` when it is `None` raises
(`none`). -/
def Container.check_overlap (_c : Container) (item : Item) (x y z : Int)
    (other : Item) : Option Bool :=
  other.position.map fun p =>
    !(decide (x + item.length ≤ p.1) || decide (x ≥ p.1 + other.length) ||
      decide (y + item.width ≤ p.2.1) || decide (y ≥ p.2.1 + other.width) ||
      decide (z + item.height ≤ p.2.2) || decide (z ≥ p.2.2 + other.height))

/-- The `for other in self.items` loop body of `Container.is_valid`: stops at
the first overlapping placed item. -/
def Container.overlapAny (c : Container) (item : Item) (x y z : Int) :
    List Item → Option Bool
  | [] => some false
  | other :: rest => do
      let b ← c.check_overlap item x y z other
      if b then pure true else c.overlapAny item x y z rest

/-- Embedding of `Container.is_valid`: bounds checks, then the weight check,
then the overlap scan, each with fail-fast early return. -/
def Container.is_valid (c : Container) (item : Item) (x y z : Int) : Option Bool :=
  if x + item.length > c.length then some false
  else if y + item.width > c.width then some false
  else if z + item.height > c.height then some false
  else if c.current_weight + item.weight > c.max_weight then some false
  else (c.overlapAny item x y z c.items).map (fun b => !b)

/-- Embedding of `Container.add_item`: sets the unit's position, appends it to
the placed sequence and adds its weight to the running total.  Returns the
updated container together with the updated item record. -/
def Container.add_item (c : Container) (item : Item) (x y z : Int) : Container × Item :=
  let item' := { item with position := some (x, y, z) }
  ({ c with items := c.items ++ [item'], current_weight := c.current_weight + item.weight },
   item')

/-- The three extreme corners contributed by one placed item in
`BinPacker.generate_positions`; unpacking a `None` position raises. -/
def cornerList (it : Item) : Option (List (Int × Int × Int)) :=
  it.position.map fun p =>
    [(p.1 + it.length, p.2.1, p.2.2), (p.1, p.2.1 + it.width, p.2.2),
     (p.1, p.2.1, p.2.2 + it.height)]

/-- The `for it in self.container.items` loop of `generate_positions`,
collecting every contributed corner in item order. -/
def cornersOf : List Item → Option (List (Int × Int × Int))
  | [] => some []
  | it :: rest => do
      let cs ← cornerList it
      let rest' ← cornersOf rest
      pure (cs ++ rest')

/-- The comparison underlying `sorted(pos, key=lambda p:(p[0], p[2], p[1]))`:
lexicographic on the key (x, z, y). -/
def posKeyLE (p q : Int × Int × Int) : Prop :=
  p.1 < q.1 ∨ (p.1 = q.1 ∧ (p.2.2 < q.2.2 ∨ (p.2.2 = q.2.2 ∧ p.2.1 ≤ q.2.1)))

instance : DecidableRel posKeyLE := fun p q => by
  unfold posKeyLE
  infer_instance

/-- Set-then-sort step of `generate_positions`: Python's `set` collapses
duplicate coordinates and `sorted` — a stable sort, modelled by the
structurally recursive `insertionSort` — orders them by the key (x, z, y);
because the key is injective the result does not depend on the set's
iteration order (`sortPositions_perm` below) nor on the sorting algorithm. -/
def sortPositions (l : List (Int × Int × Int)) : List (Int × Int × Int) :=
  List.insertionSort posKeyLE l.dedup

/-- Embedding of `BinPacker.generate_positions`, as a function of the
container it reads: `{(0,0,0)}` united with the placed items' corners,
deduplicated and sorted. -/
def generate_positions (c : Container) : Option (List (Int × Int × Int)) :=
  (cornersOf c.items).map fun cs => sortPositions ((0, 0, 0) :: cs)

/-- Inner `for o in item.orientation_preference` loop of `BinPacker.pack`:
applies each orientation to the (threaded, mutated) unit and stops at the
first one that validates.  Returns the unit's final state and the `placed`
flag. -/
def tryOrientations (c : Container) (x y z : Int) :
    Item → List String → Option (Item × Bool)
  | item, [] => some (item, false)
  | item, o :: os => do
      let item' ← item.set_orientation o
      let v ← c.is_valid item' x y z
      if v then pure (item', true) else tryOrientations c x y z item' os

/-- Outer `for x,y,z in self.generate_positions()` loop of `BinPacker.pack`
for one unit: scans candidate positions in order, commits the unit with
`add_item` at the first success. -/
def tryPositions (c : Container) : Item → List (Int × Int × Int) →
    Option (Container × Item × Bool)
  | item, [] => some (c, item, false)
  | item, p :: rest => do
      let r ← tryOrientations c p.1 p.2.1 p.2.2 item item.orientation_preference
      match r with
      | (item', true) =>
          let ci := c.add_item item' p.1 p.2.1 p.2.2
          pure (ci.1, ci.2, true)
      | (item', false) => tryPositions c item' rest

/-- One iteration of the placement loop of `BinPacker.pack`: regenerate the
candidate positions from the current container state, then search them for
this unit. -/
def packItem (c : Container) (item : Item) : Option (Container × Item × Bool) := do
  let ps ← generate_positions c
  tryPositions c item ps

/-- The `for item in expanded` loop of `BinPacker.pack`.  Besides the
container it returns the final state of every processed unit, in order. -/
def packLoop : Container → List Item → Option (Container × List Item)
  | c, [] => some (c, [])
  | c, item :: rest => do
      let r ← packItem c item
      let s ← packLoop r.1 rest
      pure (s.1, r.2.1 :: s.2)

/-- Quantity expansion of one specification in `BinPacker.pack`:
`range(it.quantity)` is empty for a non-positive quantity. -/
def expandOne (it : Item) : List Item :=
  (List.range it.quantity.toNat).map fun i =>
    { it with quantity := 1, name := it.name ++ "_" ++ toString (i + 1) }

/-- Expansion of the whole input list, in order. -/
def expandItems (items : List Item) : List Item :=
  (items.map expandOne).flatten

/-- The comparison underlying `expanded.sort(key=lambda x:(-x.weight,
-x.get_volume()))`: heavier first, ties by larger volume first. -/
def packOrderP (a b : Item) : Prop :=
  b.weight < a.weight ∨ (a.weight = b.weight ∧ b.get_volume ≤ a.get_volume)

instance : DecidableRel packOrderP := fun a b => by
  unfold packOrderP
  infer_instance

/-- Expanded units in the order `BinPacker.pack` processes them: Python's
`list.sort` is a stable sort on the key `(-weight, -volume)`, modelled by the
structurally recursive stable `insertionSort`. -/
def sortExpanded (items : List Item) : List Item :=
  List.insertionSort packOrderP (expandItems items)

/-- Embedding of `BinPacker.pack` for a packer built as `BinPacker(L,W,H,mw)`:
expand, sort, then place each unit greedily.  The first component is the
Python return value (the container); the second is the final state of each
expanded unit. -/
def pack (L W H max_weight : Int) (items : List Item) :
    Option (Container × List Item) :=
  packLoop (Container.init L W H max_weight) (sortExpanded items)

/-! ### Derived predicates, invariants, the spec-modelled first-fit search, and
concrete test fixtures -/

/-- All `Item` fields except the active dimensions and the rotation code:
`set_orientation` only rewrites the latter. -/
def sameMeta (a b : Item) : Prop :=
  a.name = b.name ∧ a.item_type = b.item_type ∧ a.original_dims = b.original_dims ∧
  a.weight = b.weight ∧ a.quantity = b.quantity ∧
  a.orientation_preference = b.orientation_preference ∧ a.fragile = b.fragile ∧
  a.can_stack = b.can_stack ∧ a.can_stack_same_type = b.can_stack_same_type ∧
  a.position = b.position ∧ a.color = b.color

/-- Disjointness of the axis-aligned boxes at (x,y,z) with dims (a1,a2,a3) and
at (px,py,pz) with dims (b1,b2,b3), exactly as `check_overlap` negates it. -/
def boxesDisjoint (x y z a1 a2 a3 px py pz b1 b2 b3 : Int) : Prop :=
  x + a1 ≤ px ∨ px + b1 ≤ x ∨ y + a2 ≤ py ∨ py + b2 ≤ y ∨ z + a3 ≤ pz ∨ pz + b3 ≤ z

/-- The conditions `is_valid` decides, as stated by the spec: bounds using the
active dimensions, weight headroom, and pairwise disjointness against every
already-placed unit. -/
def ValidPlacement (c : Container) (item : Item) (x y z : Int) : Prop :=
  x + item.length ≤ c.length ∧ y + item.width ≤ c.width ∧ z + item.height ≤ c.height ∧
  c.current_weight + item.weight ≤ c.max_weight ∧
  ∀ other ∈ c.items, ∀ px py pz, other.position = some (px, py, pz) →
    boxesDisjoint x y z item.length item.width item.height
      px py pz other.length other.width other.height

instance : IsTrans (Int × Int × Int) posKeyLE := ⟨by
  intro a b c hab hbc
  unfold posKeyLE at *
  omega⟩

instance : IsTotal (Int × Int × Int) posKeyLE := ⟨by
  intro a b
  unfold posKeyLE
  omega⟩

instance : IsAntisymm (Int × Int × Int) posKeyLE := ⟨by
  intro p q h₁ h₂
  obtain ⟨p1, p2, p3⟩ := p
  obtain ⟨q1, q2, q3⟩ := q
  unfold posKeyLE at h₁ h₂
  simp only [Prod.mk.injEq]
  refine ⟨by omega, ?_, ?_⟩
  · simp only at h₁ h₂
    omega
  · simp only at h₁ h₂
    omega⟩

/-- The membership predicate of the candidate pool coming from one placed
item: one of its three extreme corners. -/
def isCornerOf (p : Int × Int × Int) (it : Item) : Prop :=
  ∃ x y z, it.position = some (x, y, z) ∧
    (p = (x + it.length, y, z) ∨ p = (x, y + it.width, z) ∨ p = (x, y, z + it.height))

/-- Pairwise disjointness of two placed units' axis-aligned boxes, at whatever
positions they carry. -/
def PlacedDisjoint (a b : Item) : Prop :=
  ∀ xa ya za xb yb zb, a.position = some (xa, ya, za) → b.position = some (xb, yb, zb) →
    boxesDisjoint xa ya za a.length a.width a.height xb yb zb b.length b.width b.height

/-- The running invariant of the placement loop: positions are set and within
bounds, boxes are pairwise disjoint, and the running weight is the sum of the
placed weights, within the limit whenever the limit is nonnegative. -/
structure PackInv (c : Container) : Prop where
  pos_some : ∀ it ∈ c.items, it.position.isSome
  in_bounds : ∀ it ∈ c.items, ∀ x y z, it.position = some (x, y, z) →
    x + it.length ≤ c.length ∧ y + it.width ≤ c.width ∧ z + it.height ≤ c.height
  disj : c.items.Pairwise PlacedDisjoint
  weight_sum : c.current_weight = (c.items.map Item.weight).sum
  weight_le : 0 ≤ c.max_weight → c.current_weight ≤ c.max_weight

/-- All placed items have nonnegative active dimensions and nonnegative
position components. -/
def NonnegState (c : Container) : Prop :=
  ∀ it ∈ c.items, 0 ≤ it.length ∧ 0 ≤ it.width ∧ 0 ≤ it.height ∧
    ∀ x y z, it.position = some (x, y, z) → 0 ≤ x ∧ 0 ≤ y ∧ 0 ≤ z

instance : IsTrans Item packOrderP := ⟨by
  intro a b c hab hbc
  unfold packOrderP at *
  omega⟩

instance : IsTotal Item packOrderP := ⟨by
  intro a b
  unfold packOrderP
  omega⟩

/-- Modelled from the spec (§4.4 steps 3b–3c): scan the ordered sequence of
(candidate position, orientation) pairs and return the first pair — together
with the unit oriented by it — that `is_valid` accepts; `some none` means the
scan completed with no valid pair.  Unlike the loop in the code, this spec
search re-orients the pristine unit for every probe instead of mutating it in
place. -/
def firstFit (c : Container) (item : Item) :
    List ((Int × Int × Int) × String) → Option (Option ((Int × Int × Int) × String × Item))
  | [] => some none
  | po :: rest => do
      let j ← item.set_orientation po.2
      let v ← c.is_valid j po.1.1 po.1.2.1 po.1.2.2
      if v then pure (some (po.1, po.2, j)) else firstFit c item rest

/-- The ordered sequence of probes for one unit: candidate positions in their
sorted order, and within each position the orientation codes in preference
order. -/
def pairsOf (ps : List (Int × Int × Int)) (os : List String) :
    List ((Int × Int × Int) × String) :=
  (ps.map fun p => os.map fun o => (p, o)).flatten

/-! ### Concrete fixtures for witnesses and counterexamples -/

/-- A well-formed test item: a 50×50×50 box of weight 10. -/
def itemA : Item := Item.init "a" 50 50 50 10 1 none false true true "box" "red"

/-- The unit the engine derives from `itemA`, as placed at the origin. -/
def unitA : Item :=
  { name := "a_1", item_type := "box", original_dims := (50, 50, 50), length := 50,
    width := 50, height := 50, weight := 10, quantity := 1,
    orientation_preference := ["lwh"], fragile := false, can_stack := true,
    can_stack_same_type := true, position := some (0, 0, 0), rotation := some "lwh",
    color := "red" }

/-- The container produced by packing `itemA` into a 100×100×100 container. -/
def contA : Container :=
  { length := 100, width := 100, height := 100, max_weight := 1000, items := [unitA],
    current_weight := 10 }

/-- A malformed test item with a negative nominal length, quantity 2. -/
def negItem : Item := Item.init "n" (-5) 5 5 1 2 none false true true "box" "red"

/-- First unit of `negItem`, placed at the origin. -/
def negUnit1 : Item :=
  { name := "n_1", item_type := "box", original_dims := (-5, 5, 5), length := -5,
    width := 5, height := 5, weight := 1, quantity := 1,
    orientation_preference := ["lwh"], fragile := false, can_stack := true,
    can_stack_same_type := true, position := some (0, 0, 0), rotation := some "lwh",
    color := "red" }

/-- Second unit of `negItem`: the engine places it at the negative coordinate
(-5, 0, 0). -/
def negUnit2 : Item :=
  { name := "n_2", item_type := "box", original_dims := (-5, 5, 5), length := -5,
    width := 5, height := 5, weight := 1, quantity := 1,
    orientation_preference := ["lwh"], fragile := false, can_stack := true,
    can_stack_same_type := true, position := some (-5, 0, 0), rotation := some "lwh",
    color := "red" }

/-- The container produced by packing `negItem`: both units placed, one at a
negative coordinate. -/
def contN : Container :=
  { length := 100, width := 100, height := 100, max_weight := 1000,
    items := [negUnit1, negUnit2], current_weight := 2 }

/-- A unit too heavy for the `50×50×50 / max_weight 5` test container, with a
two-element orientation list. -/
def wItem : Item := Item.init "c" 10 10 10 10 1 (some ["lwh", "lhw"]) false true true "box" "red"

/-- The state `wItem` is left in after its failed search: position still
unset, rotation stuck at the last orientation tried ("lhw"). -/
def wUnitAfter : Item :=
  { name := "c", item_type := "box", original_dims := (10, 10, 10), length := 10,
    width := 10, height := 10, weight := 10, quantity := 1,
    orientation_preference := ["lwh", "lhw"], fragile := false, can_stack := true,
    can_stack_same_type := true, position := none, rotation := some "lhw",
    color := "red" }

/-- A test item with three distinct nominal dimensions (1, 2, 3). -/
def itemP : Item := Item.init "p" 1 2 3 4 1 none false true true "box" "red"

/-! ### Frame lemmas for the item/orientation model -/

theorem sameMeta_refl (a : Item) : sameMeta a a := by
  unfold sameMeta; tauto

theorem sameMeta_trans {a b c : Item} (h₁ : sameMeta a b) (h₂ : sameMeta b c) :
    sameMeta a c := by
  unfold sameMeta at *
  obtain ⟨_, _, _, _, _, _, _, _, _, _, _⟩ := h₁
  obtain ⟨_, _, _, _, _, _, _, _, _, _, _⟩ := h₂
  refine ⟨?_, ?_, ?_, ?_, ?_, ?_, ?_, ?_, ?_, ?_, ?_⟩ <;> simp_all

theorem set_orientation_eq_some {it j : Item} {o : String}
    (h : it.set_orientation o = some j) :
    ∃ d, it.get_dimensions o = some d ∧
      j = { it with length := d.1, width := d.2.1, height := d.2.2, rotation := some o } := by
  unfold Item.set_orientation at h
  rcases hd : it.get_dimensions o with _ | d
  · rw [hd] at h; simp at h
  · rw [hd] at h; simp at h
    exact ⟨d, rfl, h.symm⟩

theorem set_orientation_sameMeta {it j : Item} {o : String}
    (h : it.set_orientation o = some j) : sameMeta it j := by
  obtain ⟨d, _, rfl⟩ := set_orientation_eq_some h
  unfold sameMeta; tauto

theorem get_dimensions_congr {a b : Item} (h : a.original_dims = b.original_dims)
    (o : String) : a.get_dimensions o = b.get_dimensions o := by
  unfold Item.get_dimensions
  rw [h]

theorem set_orientation_congr {a b : Item} (h : sameMeta a b) (o : String) :
    a.set_orientation o = b.set_orientation o := by
  obtain ⟨h1, h2, h3, h4, h5, h6, h7, h8, h9, h10, h11⟩ := h
  unfold Item.set_orientation
  rw [get_dimensions_congr h3]
  rcases b.get_dimensions o with _ | d
  · rfl
  · cases a; cases b
    simp_all

/-! ### The geometric oracle -/

theorem boxesDisjoint_symm {x y z a1 a2 a3 px py pz b1 b2 b3 : Int}
    (h : boxesDisjoint x y z a1 a2 a3 px py pz b1 b2 b3) :
    boxesDisjoint px py pz b1 b2 b3 x y z a1 a2 a3 := by
  unfold boxesDisjoint at *
  tauto

/-- The six-way overlap test of `check_overlap` decides box disjointness. -/
theorem check_overlap_eq_false_iff {c : Container} {item other : Item} {x y z px py pz : Int}
    (hp : other.position = some (px, py, pz)) :
    c.check_overlap item x y z other = some false ↔
      boxesDisjoint x y z item.length item.width item.height
        px py pz other.length other.width other.height := by
  unfold Container.check_overlap boxesDisjoint
  rw [hp]
  simp only [Option.map_some', Option.some_inj, Bool.not_eq_false', Bool.or_eq_true,
    decide_eq_true_eq, ge_iff_le]
  tauto

theorem check_overlap_isSome {c : Container} {item other : Item} {x y z : Int}
    (hp : other.position.isSome) : (c.check_overlap item x y z other).isSome := by
  unfold Container.check_overlap
  rcases h : other.position with _ | p
  · rw [h] at hp; simp at hp
  · rfl

theorem overlapAny_cons {c : Container} {item o : Item} {x y z : Int} {rest : List Item} :
    c.overlapAny item x y z (o :: rest) = (c.check_overlap item x y z o).bind
      (fun b => if b then pure true else c.overlapAny item x y z rest) := rfl

theorem overlapAny_eq_false {c : Container} {item : Item} {x y z : Int} :
    ∀ {l : List Item}, c.overlapAny item x y z l = some false →
      ∀ other ∈ l, ∀ px py pz, other.position = some (px, py, pz) →
        boxesDisjoint x y z item.length item.width item.height
          px py pz other.length other.width other.height
  | [], _, other, hmem, _, _, _, _ => by simp at hmem
  | o :: rest, h, other, hmem, px, py, pz, hp => by
      rw [overlapAny_cons] at h
      rcases hb : c.check_overlap item x y z o with _ | b
      · rw [hb] at h; simp at h
      · rw [hb] at h
        simp only [Option.some_bind] at h
        rcases b with _ | _
        · simp only [Bool.false_eq_true, if_false] at h
          rcases List.mem_cons.mp hmem with rfl | hmem'
          · exact (check_overlap_eq_false_iff hp).mp hb
          · exact overlapAny_eq_false h other hmem' px py pz hp
        · simp at h

theorem overlapAny_total {c : Container} {item : Item} {x y z : Int} :
    ∀ {l : List Item}, (∀ o ∈ l, o.position.isSome) →
      ∃ b, c.overlapAny item x y z l = some b
  | [], _ => ⟨false, rfl⟩
  | o :: rest, hpos => by
      obtain ⟨p, hp⟩ := Option.isSome_iff_exists.mp (hpos o (List.mem_cons_self o rest))
      obtain ⟨b, hb⟩ : ∃ b, c.check_overlap item x y z o = some b := by
        unfold Container.check_overlap
        rw [hp]
        exact ⟨_, rfl⟩
      unfold Container.overlapAny
      rw [hb]
      rcases b with _ | _
      · simpa using overlapAny_total fun o' ho' => hpos o' (List.mem_cons_of_mem _ ho')
      · exact ⟨true, rfl⟩

theorem overlapAny_of_all_disjoint {c : Container} {item : Item} {x y z : Int} :
    ∀ {l : List Item}, (∀ o ∈ l, o.position.isSome) →
      (∀ other ∈ l, ∀ px py pz, other.position = some (px, py, pz) →
        boxesDisjoint x y z item.length item.width item.height
          px py pz other.length other.width other.height) →
      c.overlapAny item x y z l = some false
  | [], _, _ => rfl
  | o :: rest, hpos, hdisj => by
      obtain ⟨⟨px, py, pz⟩, hp⟩ :=
        Option.isSome_iff_exists.mp (hpos o (List.mem_cons_self o rest))
      have hb : c.check_overlap item x y z o = some false :=
        (check_overlap_eq_false_iff hp).mpr
          (hdisj o (List.mem_cons_self o rest) px py pz hp)
      unfold Container.overlapAny
      rw [hb]
      simpa using overlapAny_of_all_disjoint
        (fun o' ho' => hpos o' (List.mem_cons_of_mem _ ho'))
        (fun o' ho' => hdisj o' (List.mem_cons_of_mem _ ho'))

theorem is_valid_true_elim {c : Container} {item : Item} {x y z : Int}
    (h : c.is_valid item x y z = some true) : ValidPlacement c item x y z := by
  unfold Container.is_valid at h
  by_cases h1 : x + item.length > c.length
  · rw [if_pos h1] at h; simp at h
  rw [if_neg h1] at h
  by_cases h2 : y + item.width > c.width
  · rw [if_pos h2] at h; simp at h
  rw [if_neg h2] at h
  by_cases h3 : z + item.height > c.height
  · rw [if_pos h3] at h; simp at h
  rw [if_neg h3] at h
  by_cases h4 : c.current_weight + item.weight > c.max_weight
  · rw [if_pos h4] at h; simp at h
  rw [if_neg h4] at h
  have hov : c.overlapAny item x y z c.items = some false := by
    rcases ho : c.overlapAny item x y z c.items with _ | b
    · rw [ho] at h; simp at h
    · rw [ho] at h
      rcases b with _ | _
      · rfl
      · simp at h
  exact ⟨by omega, by omega, by omega, by omega, overlapAny_eq_false hov⟩

theorem is_valid_true_intro {c : Container} {item : Item} {x y z : Int}
    (hpos : ∀ it ∈ c.items, it.position.isSome)
    (h : ValidPlacement c item x y z) : c.is_valid item x y z = some true := by
  obtain ⟨h1, h2, h3, h4, h5⟩ := h
  unfold Container.is_valid
  rw [if_neg (by omega), if_neg (by omega), if_neg (by omega), if_neg (by omega),
    overlapAny_of_all_disjoint hpos h5]
  rfl

/-- Characterization of `is_valid` returning `True`, given that every placed
item carries a position (an invariant of every engine-produced container). -/
theorem is_valid_true_iff {c : Container} {item : Item} {x y z : Int}
    (hpos : ∀ it ∈ c.items, it.position.isSome) :
    c.is_valid item x y z = some true ↔ ValidPlacement c item x y z :=
  ⟨is_valid_true_elim, is_valid_true_intro hpos⟩

theorem is_valid_isSome {c : Container} {item : Item} {x y z : Int}
    (hpos : ∀ it ∈ c.items, it.position.isSome) :
    ∃ b, c.is_valid item x y z = some b := by
  unfold Container.is_valid
  by_cases h1 : x + item.length > c.length
  · rw [if_pos h1]; exact ⟨false, rfl⟩
  rw [if_neg h1]
  by_cases h2 : y + item.width > c.width
  · rw [if_pos h2]; exact ⟨false, rfl⟩
  rw [if_neg h2]
  by_cases h3 : z + item.height > c.height
  · rw [if_pos h3]; exact ⟨false, rfl⟩
  rw [if_neg h3]
  by_cases h4 : c.current_weight + item.weight > c.max_weight
  · rw [if_pos h4]; exact ⟨false, rfl⟩
  rw [if_neg h4]
  obtain ⟨b, hb⟩ := @overlapAny_total c item x y z _ hpos
  rw [hb]
  exact ⟨!b, rfl⟩

theorem is_valid_bound_x {c : Container} {item : Item} {x y z : Int}
    (h : x + item.length > c.length) : c.is_valid item x y z = some false := by
  unfold Container.is_valid
  rw [if_pos h]

theorem is_valid_bound_y {c : Container} {item : Item} {x y z : Int}
    (h : y + item.width > c.width) : c.is_valid item x y z = some false := by
  unfold Container.is_valid
  by_cases h1 : x + item.length > c.length
  · rw [if_pos h1]
  · rw [if_neg h1, if_pos h]

theorem is_valid_bound_z {c : Container} {item : Item} {x y z : Int}
    (h : z + item.height > c.height) : c.is_valid item x y z = some false := by
  unfold Container.is_valid
  by_cases h1 : x + item.length > c.length
  · rw [if_pos h1]
  · rw [if_neg h1]
    by_cases h2 : y + item.width > c.width
    · rw [if_pos h2]
    · rw [if_neg h2, if_pos h]

theorem is_valid_weight {c : Container} {item : Item} {x y z : Int}
    (h : c.current_weight + item.weight > c.max_weight) :
    c.is_valid item x y z = some false := by
  unfold Container.is_valid
  by_cases h1 : x + item.length > c.length
  · rw [if_pos h1]
  · rw [if_neg h1]
    by_cases h2 : y + item.width > c.width
    · rw [if_pos h2]
    · rw [if_neg h2]
      by_cases h3 : z + item.height > c.height
      · rw [if_pos h3]
      · rw [if_neg h3, if_pos h]

/-! ### Candidate position generator -/

theorem mem_sortPositions {p : Int × Int × Int} {l : List (Int × Int × Int)} :
    p ∈ sortPositions l ↔ p ∈ l := by
  unfold sortPositions
  rw [List.mem_insertionSort, List.mem_dedup]

theorem sortPositions_pairwise (l : List (Int × Int × Int)) :
    (sortPositions l).Pairwise posKeyLE :=
  List.sorted_insertionSort posKeyLE l.dedup

theorem sortPositions_nodup (l : List (Int × Int × Int)) : (sortPositions l).Nodup :=
  ((List.perm_insertionSort posKeyLE l.dedup).nodup_iff).mpr (List.nodup_dedup l)

/-- Candidate-set independence from the set's enumeration order: the key
(x, z, y) is injective, so any two enumerations of the same position set sort
to the same list. -/
theorem sortPositions_perm {l₁ l₂ : List (Int × Int × Int)} (h : List.Perm l₁ l₂) :
    sortPositions l₁ = sortPositions l₂ := by
  have hp : List.Perm (sortPositions l₁) (sortPositions l₂) := by
    unfold sortPositions
    exact ((List.perm_insertionSort posKeyLE l₁.dedup).trans h.dedup).trans
      (List.perm_insertionSort posKeyLE l₂.dedup).symm
  exact List.eq_of_perm_of_sorted hp (sortPositions_pairwise l₁) (sortPositions_pairwise l₂)

theorem cornersOf_cons {it : Item} {rest : List Item} :
    cornersOf (it :: rest) = (cornerList it).bind
      (fun cs => (cornersOf rest).bind fun rest' => pure (cs ++ rest')) := rfl

theorem cornersOf_spec : ∀ {l : List Item}, (∀ it ∈ l, it.position.isSome) →
    ∃ cs, cornersOf l = some cs ∧ ∀ p, p ∈ cs ↔ ∃ it ∈ l, isCornerOf p it
  | [], _ => ⟨[], rfl, by simp⟩
  | it :: rest, hpos => by
      obtain ⟨⟨x, y, z⟩, hp⟩ :=
        Option.isSome_iff_exists.mp (hpos it (List.mem_cons_self it rest))
      obtain ⟨cs, hcs, hmem⟩ :=
        cornersOf_spec (fun it' h' => hpos it' (List.mem_cons_of_mem _ h'))
      refine ⟨[(x + it.length, y, z), (x, y + it.width, z), (x, y, z + it.height)] ++ cs,
        ?_, ?_⟩
      · rw [cornersOf_cons]
        unfold cornerList
        rw [hp, hcs]
        rfl
      · intro p
        simp only [List.mem_append, List.mem_cons, List.not_mem_nil, or_false]
        constructor
        · rintro ((rfl | rfl | rfl) | hcs')
          · exact ⟨it, Or.inl rfl, x, y, z, hp, Or.inl rfl⟩
          · exact ⟨it, Or.inl rfl, x, y, z, hp, Or.inr (Or.inl rfl)⟩
          · exact ⟨it, Or.inl rfl, x, y, z, hp, Or.inr (Or.inr rfl)⟩
          · obtain ⟨it', hit', hc⟩ := (hmem p).mp hcs'
            exact ⟨it', Or.inr hit', hc⟩
        · rintro ⟨it', hit' | hit', hc⟩
          · subst hit'
            obtain ⟨x', y', z', hp', hdisj⟩ := hc
            rw [hp] at hp'
            obtain ⟨rfl, rfl, rfl⟩ : x = x' ∧ y = y' ∧ z = z' := by
              simpa [Prod.ext_iff] using hp'
            exact Or.inl hdisj
          · exact Or.inr ((hmem p).mpr ⟨it', hit', hc⟩)

theorem cornersOf_mem : ∀ {l : List Item} {cs : List (Int × Int × Int)},
    cornersOf l = some cs → ∀ p ∈ cs, ∃ it ∈ l, isCornerOf p it
  | [], cs, h, p, hp => by
      simp only [cornersOf, Option.some_inj] at h
      subst h
      simp at hp
  | it :: rest, cs, h, p, hp => by
      rw [cornersOf_cons] at h
      rcases hc : cornerList it with _ | c1
      · rw [hc] at h; simp at h
      rw [hc] at h
      rcases hr : cornersOf rest with _ | cr
      · rw [hr] at h; simp at h
      rw [hr] at h
      simp only [Option.some_bind, Option.pure_def, Option.some_inj] at h
      subst h
      rcases List.mem_append.mp hp with h1 | h2
      · rcases hps : it.position with _ | q
        · unfold cornerList at hc; rw [hps] at hc; simp at hc
        · unfold cornerList at hc
          rw [hps] at hc
          simp only [Option.map_some', Option.some_inj] at hc
          subst hc
          obtain ⟨q1, q2, q3⟩ := q
          simp only [List.mem_cons, List.not_mem_nil, or_false] at h1
          exact ⟨it, List.mem_cons_self it rest,
            q1, q2, q3, hps, by tauto⟩
      · obtain ⟨it', hit', hc'⟩ := cornersOf_mem hr p h2
        exact ⟨it', List.mem_cons_of_mem _ hit', hc'⟩

/-- Full characterization of `generate_positions` on a container whose placed
items all carry positions: it succeeds, and returns exactly the set
`{(0,0,0)} ∪ corners`, without duplicates, sorted by the key (x, z, y). -/
theorem generate_positions_eq {c : Container} (hpos : ∀ it ∈ c.items, it.position.isSome) :
    ∃ ps, generate_positions c = some ps ∧
      (∀ p, p ∈ ps ↔ (p = (0, 0, 0) ∨ ∃ it ∈ c.items, isCornerOf p it)) ∧
      ps.Pairwise posKeyLE ∧ ps.Nodup := by
  obtain ⟨cs, hcs, hmem⟩ := cornersOf_spec hpos
  refine ⟨sortPositions ((0, 0, 0) :: cs), ?_, ?_, sortPositions_pairwise _,
    sortPositions_nodup _⟩
  · unfold generate_positions
    rw [hcs]
    rfl
  · intro p
    rw [mem_sortPositions, List.mem_cons]
    exact or_congr Iff.rfl (hmem p)

theorem generate_positions_mem {c : Container} {ps : List (Int × Int × Int)}
    (h : generate_positions c = some ps) :
    ∀ p ∈ ps, p = (0, 0, 0) ∨ ∃ it ∈ c.items, isCornerOf p it := by
  unfold generate_positions at h
  rcases hcs : cornersOf c.items with _ | cs
  · rw [hcs] at h; simp at h
  · rw [hcs] at h
    simp only [Option.map_some', Option.some_inj] at h
    subst h
    intro p hp
    rcases List.mem_cons.mp (mem_sortPositions.mp hp) with h0 | hc
    · exact Or.inl h0
    · exact Or.inr (cornersOf_mem hcs p hc)

theorem generate_positions_zero_mem {c : Container} {ps : List (Int × Int × Int)}
    (h : generate_positions c = some ps) : (0, 0, 0) ∈ ps := by
  unfold generate_positions at h
  rcases hcs : cornersOf c.items with _ | cs
  · rw [hcs] at h; simp at h
  · rw [hcs] at h
    simp only [Option.map_some', Option.some_inj] at h
    subst h
    exact mem_sortPositions.mpr (List.mem_cons_self _ _)

/-! ### The per-unit search -/

theorem tryOrientations_cons {c : Container} {x y z : Int} {item : Item} {o : String}
    {os : List String} :
    tryOrientations c x y z item (o :: os) = (item.set_orientation o).bind
      (fun item' => (c.is_valid item' x y z).bind
        (fun v => if v then pure (item', true) else tryOrientations c x y z item' os)) := rfl

theorem tryOrientations_success {c : Container} {x y z : Int} :
    ∀ {os : List String} {item it' : Item},
    tryOrientations c x y z item os = some (it', true) →
    ∃ o ∈ os, item.set_orientation o = some it' ∧ c.is_valid it' x y z = some true
  | [], item, it', h => by simp [tryOrientations] at h
  | o :: os, item, it', h => by
      rw [tryOrientations_cons] at h
      rcases hso : item.set_orientation o with _ | item₁
      · rw [hso] at h; simp at h
      rw [hso] at h
      simp only [Option.some_bind] at h
      rcases hv : c.is_valid item₁ x y z with _ | v
      · rw [hv] at h; simp at h
      rw [hv] at h
      simp only [Option.some_bind] at h
      rcases v with _ | _
      · simp only [Bool.false_eq_true, if_false] at h
        obtain ⟨o', ho', hso', hv'⟩ := tryOrientations_success h
        exact ⟨o', List.mem_cons_of_mem _ ho',
          (set_orientation_congr (set_orientation_sameMeta hso) o').trans hso', hv'⟩
      · simp only [if_true, Option.pure_def, Option.some_inj, Prod.mk.injEq] at h
        obtain ⟨rfl, -⟩ := h
        exact ⟨o, List.mem_cons_self o os, hso, hv⟩

theorem tryOrientations_failure {c : Container} {x y z : Int} :
    ∀ {os : List String} {item it' : Item},
    tryOrientations c x y z item os = some (it', false) →
    sameMeta item it' ∧ (os = [] → it' = item) ∧
    (∀ o, os.getLast? = some o → item.set_orientation o = some it')
  | [], item, it', h => by
      simp only [tryOrientations, Option.some_inj, Prod.mk.injEq] at h
      obtain ⟨rfl, -⟩ := h
      exact ⟨sameMeta_refl _, fun _ => rfl, fun o ho => by simp at ho⟩
  | o :: os, item, it', h => by
      rw [tryOrientations_cons] at h
      rcases hso : item.set_orientation o with _ | item₁
      · rw [hso] at h; simp at h
      rw [hso] at h
      simp only [Option.some_bind] at h
      rcases hv : c.is_valid item₁ x y z with _ | v
      · rw [hv] at h; simp at h
      rw [hv] at h
      simp only [Option.some_bind] at h
      rcases v with _ | _
      · simp only [Bool.false_eq_true, if_false] at h
        obtain ⟨hmeta, hemp, hlast⟩ := tryOrientations_failure h
        have hm : sameMeta item it' := sameMeta_trans (set_orientation_sameMeta hso) hmeta
        refine ⟨hm, fun hx => by simp at hx, fun o' ho' => ?_⟩
        rcases os with _ | ⟨o₂, os'⟩
        · simp only [List.getLast?_singleton, Option.some_inj] at ho'
          subst ho'
          have : it' = item₁ := hemp rfl
          subst this
          exact hso
        · rw [List.getLast?_cons_cons] at ho'
          exact (set_orientation_congr (set_orientation_sameMeta hso) o').trans (hlast o' ho')
      · simp only [if_true, Option.pure_def, Option.some_inj, Prod.mk.injEq] at h
        exact absurd h.2 (by simp)

theorem tryPositions_cons {c : Container} {item : Item} {p : Int × Int × Int}
    {rest : List (Int × Int × Int)} :
    tryPositions c item (p :: rest) =
      (tryOrientations c p.1 p.2.1 p.2.2 item item.orientation_preference).bind
        (fun r => match r with
          | (item', true) =>
              pure ((c.add_item item' p.1 p.2.1 p.2.2).1,
                (c.add_item item' p.1 p.2.1 p.2.2).2, true)
          | (item', false) => tryPositions c item' rest) := rfl

theorem tryPositions_cases {c : Container} :
    ∀ {ps : List (Int × Int × Int)} {item : Item} {r : Container × Item × Bool},
    tryPositions c item ps = some r →
    (r.2.2 = false ∧ r.1 = c ∧ sameMeta item r.2.1) ∨
    (r.2.2 = true ∧ ∃ x y z j, (x, y, z) ∈ ps ∧
      (∃ o ∈ item.orientation_preference, item.set_orientation o = some j) ∧
      c.is_valid j x y z = some true ∧
      r = ((c.add_item j x y z).1, (c.add_item j x y z).2, true))
  | [], item, r, h => by
      simp only [tryPositions, Option.some_inj] at h
      subst h
      exact Or.inl ⟨rfl, rfl, sameMeta_refl item⟩
  | p :: rest, item, r, h => by
      rw [tryPositions_cons] at h
      rcases ho : tryOrientations c p.1 p.2.1 p.2.2 item item.orientation_preference
        with _ | ⟨item₁, fl⟩
      · rw [ho] at h; simp at h
      rw [ho] at h
      simp only [Option.some_bind] at h
      rcases fl with _ | _
      · have hmeta := (tryOrientations_failure ho).1
        have hpref : item.orientation_preference = item₁.orientation_preference :=
          hmeta.2.2.2.2.2.1
        rcases tryPositions_cases h with ⟨hf, hc, hm⟩ | ⟨ht, x, y, z, j, hmem, hor, hv, hr⟩
        · exact Or.inl ⟨hf, hc, sameMeta_trans hmeta hm⟩
        · refine Or.inr ⟨ht, x, y, z, j, List.mem_cons_of_mem _ hmem, ?_, hv, hr⟩
          obtain ⟨o, ho', hso⟩ := hor
          exact ⟨o, by rw [hpref]; exact ho',
            (set_orientation_congr hmeta o).trans hso⟩
      · simp only [Option.pure_def, Option.some_inj] at h
        subst h
        obtain ⟨o, ho', hso, hv⟩ := tryOrientations_success ho
        exact Or.inr ⟨rfl, p.1, p.2.1, p.2.2, item₁, List.mem_cons_self p rest,
          ⟨o, ho', hso⟩, hv, rfl⟩

theorem tryPositions_failure {c : Container} :
    ∀ {ps : List (Int × Int × Int)} {item it' : Item} {c' : Container},
    tryPositions c item ps = some (c', it', false) →
    c' = c ∧ sameMeta item it' ∧ (ps = [] → it' = item) ∧
    (ps ≠ [] →
      (item.orientation_preference = [] → it' = item) ∧
      (∀ o, item.orientation_preference.getLast? = some o →
        item.set_orientation o = some it'))
  | [], item, it', c', h => by
      simp only [tryPositions, Option.some_inj, Prod.mk.injEq] at h
      obtain ⟨rfl, rfl, -⟩ := h
      exact ⟨rfl, sameMeta_refl _, fun _ => rfl, fun hne => absurd rfl hne⟩
  | p :: rest, item, it', c', h => by
      rw [tryPositions_cons] at h
      rcases ho : tryOrientations c p.1 p.2.1 p.2.2 item item.orientation_preference
        with _ | ⟨item₁, fl⟩
      · rw [ho] at h; simp at h
      rw [ho] at h
      simp only [Option.some_bind] at h
      rcases fl with _ | _
      · obtain ⟨hmeta, hemp, hlast⟩ := tryOrientations_failure ho
        obtain ⟨rfl, hm₁, hemp₁, hrest⟩ := tryPositions_failure h
        have hpref : item.orientation_preference = item₁.orientation_preference :=
          hmeta.2.2.2.2.2.1
        refine ⟨rfl, sameMeta_trans hmeta hm₁, fun hx => by simp at hx, fun _ => ⟨?_, ?_⟩⟩
        · intro hp0
          have h1 : item₁ = item := hemp hp0
          rcases rest with _ | ⟨p₂, rest'⟩
          · rw [hemp₁ rfl, h1]
          · have hp1 : item₁.orientation_preference = [] := by rw [h1]; exact hp0
            rw [(hrest (by simp)).1 hp1, h1]
        · intro o hlp
          rcases rest with _ | ⟨p₂, rest'⟩
          · rw [hemp₁ rfl]
            exact hlast o hlp
          · have := (hrest (by simp)).2 o (by rw [← hpref]; exact hlp)
            exact (set_orientation_congr hmeta o).trans this
      · simp only [Option.pure_def, Option.some_inj, Prod.mk.injEq] at h
        exact absurd h.2.2 (by simp)

theorem packItem_eq {c : Container} {item : Item} :
    packItem c item = (generate_positions c).bind fun ps => tryPositions c item ps := rfl

theorem add_item_items {c : Container} {item : Item} {x y z : Int} :
    (c.add_item item x y z).1.items =
      c.items ++ [{ item with position := some (x, y, z) }] := rfl

theorem add_item_weight {c : Container} {item : Item} {x y z : Int} :
    (c.add_item item x y z).1.current_weight = c.current_weight + item.weight := rfl

theorem add_item_snd {c : Container} {item : Item} {x y z : Int} :
    (c.add_item item x y z).2 = { item with position := some (x, y, z) } := rfl

theorem add_item_frame {c : Container} {item : Item} {x y z : Int} :
    (c.add_item item x y z).1.length = c.length ∧
    (c.add_item item x y z).1.width = c.width ∧
    (c.add_item item x y z).1.height = c.height ∧
    (c.add_item item x y z).1.max_weight = c.max_weight := ⟨rfl, rfl, rfl, rfl⟩

theorem packItem_cases {c : Container} {item : Item} {r : Container × Item × Bool}
    (h : packItem c item = some r) :
    ∃ ps, generate_positions c = some ps ∧
      ((r.2.2 = false ∧ r.1 = c ∧ sameMeta item r.2.1) ∨
       (r.2.2 = true ∧ ∃ x y z j, (x, y, z) ∈ ps ∧
         (∃ o ∈ item.orientation_preference, item.set_orientation o = some j) ∧
         c.is_valid j x y z = some true ∧
         r = ((c.add_item j x y z).1, (c.add_item j x y z).2, true))) := by
  rw [packItem_eq] at h
  rcases hps : generate_positions c with _ | ps
  · rw [hps] at h; simp at h
  · rw [hps] at h
    simp only [Option.some_bind] at h
    exact ⟨ps, rfl, tryPositions_cases h⟩

theorem packItem_failure {c c' : Container} {item it' : Item}
    (h : packItem c item = some (c', it', false)) :
    c' = c ∧ sameMeta item it' ∧
    (item.orientation_preference = [] → it' = item) ∧
    (∀ o, item.orientation_preference.getLast? = some o →
      item.set_orientation o = some it') := by
  rw [packItem_eq] at h
  rcases hps : generate_positions c with _ | ps
  · rw [hps] at h; simp at h
  · rw [hps] at h
    simp only [Option.some_bind] at h
    obtain ⟨rfl, hm, -, hrest⟩ := tryPositions_failure h
    have hne : ps ≠ [] := by
      intro h0
      have := generate_positions_zero_mem hps
      rw [h0] at this
      simp at this
    exact ⟨rfl, hm, (hrest hne).1, (hrest hne).2⟩

/-! ### Invariants of engine-produced containers -/

theorem packInv_init (L W H mw : Int) : PackInv (Container.init L W H mw) := by
  refine ⟨?_, ?_, ?_, ?_, ?_⟩ <;> simp [Container.init]

theorem packItem_inv {c : Container} {item : Item} {r : Container × Item × Bool}
    (hinv : PackInv c) (h : packItem c item = some r) : PackInv r.1 := by
  obtain ⟨ps, -, hcase⟩ := packItem_cases h
  rcases hcase with ⟨-, hc, -⟩ | ⟨-, x, y, z, j, -, -, hv, hr⟩
  · rw [hc]; exact hinv
  · obtain ⟨hbx, hby, hbz, hw, hdisj⟩ := is_valid_true_elim hv
    subst hr
    refine ⟨?_, ?_, ?_, ?_, ?_⟩
    · intro it hit
      rw [add_item_items] at hit
      rcases List.mem_append.mp hit with h1 | h2
      · exact hinv.pos_some it h1
      · simp only [List.mem_singleton] at h2
        subst h2
        rfl
    · intro it hit x' y' z' hp'
      rw [add_item_items] at hit
      rw [add_item_frame.1, add_item_frame.2.1, add_item_frame.2.2.1]
      rcases List.mem_append.mp hit with h1 | h2
      · exact hinv.in_bounds it h1 x' y' z' hp'
      · simp only [List.mem_singleton] at h2
        subst h2
        simp only at hp'
        obtain ⟨rfl, rfl, rfl⟩ : x = x' ∧ y = y' ∧ z = z' := by
          simpa [Prod.ext_iff] using hp'
        exact ⟨hbx, hby, hbz⟩
    · rw [add_item_items, List.pairwise_append]
      refine ⟨hinv.disj, by simp, ?_⟩
      intro a ha b hb
      simp only [List.mem_singleton] at hb
      subst hb
      intro xa ya za xb yb zb hpa hpb
      simp only at hpb
      obtain ⟨rfl, rfl, rfl⟩ : x = xb ∧ y = yb ∧ z = zb := by
        simpa [Prod.ext_iff] using hpb
      simpa using boxesDisjoint_symm (hdisj a ha xa ya za hpa)
    · rw [add_item_items, add_item_weight, hinv.weight_sum]
      simp
    · intro _
      rw [add_item_weight, add_item_frame.2.2.2]
      exact hw

theorem packLoop_cons {c : Container} {item : Item} {rest : List Item} :
    packLoop c (item :: rest) = (packItem c item).bind
      (fun r => (packLoop r.1 rest).bind fun s => pure (s.1, r.2.1 :: s.2)) := rfl

theorem packItem_frame {c : Container} {item : Item} {r : Container × Item × Bool}
    (h : packItem c item = some r) :
    r.1.length = c.length ∧ r.1.width = c.width ∧ r.1.height = c.height ∧
    r.1.max_weight = c.max_weight := by
  obtain ⟨ps, -, hcase⟩ := packItem_cases h
  rcases hcase with ⟨-, hc, -⟩ | ⟨-, x, y, z, j, -, -, -, hr⟩
  · rw [hc]; exact ⟨rfl, rfl, rfl, rfl⟩
  · rw [hr]; exact ⟨rfl, rfl, rfl, rfl⟩

theorem packLoop_inv : ∀ {units : List Item} {c c' : Container} {l' : List Item},
    packLoop c units = some (c', l') → PackInv c → PackInv c' ∧
      c'.length = c.length ∧ c'.width = c.width ∧ c'.height = c.height ∧
      c'.max_weight = c.max_weight
  | [], c, c', l', h, hinv => by
      simp only [packLoop, Option.some_inj, Prod.mk.injEq] at h
      obtain ⟨rfl, -⟩ := h
      exact ⟨hinv, rfl, rfl, rfl, rfl⟩
  | item :: rest, c, c', l', h, hinv => by
      rw [packLoop_cons] at h
      rcases hr : packItem c item with _ | r
      · rw [hr] at h; simp at h
      rw [hr] at h
      simp only [Option.some_bind] at h
      rcases hs : packLoop r.1 rest with _ | s
      · rw [hs] at h; simp at h
      rw [hs] at h
      simp only [Option.pure_def, Option.some_inj, Prod.mk.injEq] at h
      obtain ⟨rfl, -⟩ := h
      obtain ⟨hinv', hL, hW, hH, hM⟩ := packLoop_inv hs (packItem_inv hinv hr)
      obtain ⟨hL', hW', hH', hM'⟩ := packItem_frame hr
      exact ⟨hinv', by omega, by omega, by omega, by omega⟩

/-! ### Sign-condition invariant (needed for `position ≥ 0`) -/

theorem get_dimensions_components {it : Item} {o : String} {d : Int × Int × Int}
    (h : it.get_dimensions o = some d) :
    (d.1 = it.original_dims.1 ∨ d.1 = it.original_dims.2.1 ∨ d.1 = it.original_dims.2.2) ∧
    (d.2.1 = it.original_dims.1 ∨ d.2.1 = it.original_dims.2.1 ∨ d.2.1 = it.original_dims.2.2) ∧
    (d.2.2 = it.original_dims.1 ∨ d.2.2 = it.original_dims.2.1 ∨ d.2.2 = it.original_dims.2.2) := by
  unfold Item.get_dimensions at h
  split_ifs at h <;> simp only [Option.some_inj] at h <;> subst h <;> simp

theorem generate_positions_nonneg {c : Container} {ps : List (Int × Int × Int)}
    (hn : NonnegState c) (h : generate_positions c = some ps) :
    ∀ p ∈ ps, 0 ≤ p.1 ∧ 0 ≤ p.2.1 ∧ 0 ≤ p.2.2 := by
  intro p hp
  rcases generate_positions_mem h p hp with rfl | ⟨it, hit, x, y, z, hpos, hc⟩
  · exact ⟨le_refl 0, le_refl 0, le_refl 0⟩
  · obtain ⟨hl, hw, hh, hxyz⟩ := hn it hit
    obtain ⟨hx, hy, hz⟩ := hxyz x y z hpos
    rcases hc with rfl | rfl | rfl
    · exact ⟨by simpa using add_nonneg hx hl, hy, hz⟩
    · exact ⟨hx, by simpa using add_nonneg hy hw, hz⟩
    · exact ⟨hx, hy, by simpa using add_nonneg hz hh⟩

theorem packItem_nonneg {c : Container} {item : Item} {r : Container × Item × Bool}
    (hn : NonnegState c)
    (hd : 0 ≤ item.original_dims.1 ∧ 0 ≤ item.original_dims.2.1 ∧ 0 ≤ item.original_dims.2.2)
    (h : packItem c item = some r) : NonnegState r.1 := by
  obtain ⟨ps, hps, hcase⟩ := packItem_cases h
  rcases hcase with ⟨-, hc, -⟩ | ⟨-, x, y, z, j, hmem, hor, hv, hr⟩
  · rw [hc]; exact hn
  · obtain ⟨o, ho, hso⟩ := hor
    subst hr
    intro it hit
    rw [add_item_items] at hit
    rcases List.mem_append.mp hit with h1 | h2
    · exact hn it h1
    · simp only [List.mem_singleton] at h2
      subst h2
      obtain ⟨d, hgd, rfl⟩ := set_orientation_eq_some hso
      obtain ⟨hc1, hc2, hc3⟩ := get_dimensions_components hgd
      have hxyz := generate_positions_nonneg hn hps (x, y, z) hmem
      obtain ⟨hx, hy, hz⟩ := hxyz
      refine ⟨?_, ?_, ?_, ?_⟩
      · show 0 ≤ d.1
        rcases hc1 with h' | h' | h' <;> rw [h'] <;> tauto
      · show 0 ≤ d.2.1
        rcases hc2 with h' | h' | h' <;> rw [h'] <;> tauto
      · show 0 ≤ d.2.2
        rcases hc3 with h' | h' | h' <;> rw [h'] <;> tauto
      · intro x' y' z' hp'
        simp only at hp'
        obtain ⟨rfl, rfl, rfl⟩ : x = x' ∧ y = y' ∧ z = z' := by
          simpa [Prod.ext_iff] using hp'
        exact ⟨hx, hy, hz⟩

theorem packLoop_nonneg : ∀ {units : List Item} {c c' : Container} {l' : List Item},
    packLoop c units = some (c', l') →
    (∀ it ∈ units, 0 ≤ it.original_dims.1 ∧ 0 ≤ it.original_dims.2.1 ∧
      0 ≤ it.original_dims.2.2) →
    NonnegState c → NonnegState c'
  | [], c, c', l', h, _, hn => by
      simp only [packLoop, Option.some_inj, Prod.mk.injEq] at h
      obtain ⟨rfl, -⟩ := h
      exact hn
  | item :: rest, c, c', l', h, hd, hn => by
      rw [packLoop_cons] at h
      rcases hr : packItem c item with _ | r
      · rw [hr] at h; simp at h
      rw [hr] at h
      simp only [Option.some_bind] at h
      rcases hs : packLoop r.1 rest with _ | s
      · rw [hs] at h; simp at h
      rw [hs] at h
      simp only [Option.pure_def, Option.some_inj, Prod.mk.injEq] at h
      obtain ⟨rfl, -⟩ := h
      exact packLoop_nonneg hs (fun it hit => hd it (List.mem_cons_of_mem _ hit))
        (packItem_nonneg hn (hd item (List.mem_cons_self item rest)) hr)

/-! ### Expansion and processing order -/

theorem expandOne_mem {it it' : Item} (h : it' ∈ expandOne it) :
    it'.original_dims = it.original_dims ∧ it'.weight = it.weight ∧
    it'.orientation_preference = it.orientation_preference ∧
    it'.position = it.position := by
  unfold expandOne at h
  obtain ⟨i, -, rfl⟩ := List.mem_map.mp h
  exact ⟨rfl, rfl, rfl, rfl⟩

theorem sortExpanded_perm (items : List Item) :
    List.Perm (sortExpanded items) (expandItems items) :=
  List.perm_insertionSort packOrderP (expandItems items)

theorem sortExpanded_mem {items : List Item} {it' : Item} (h : it' ∈ sortExpanded items) :
    ∃ it ∈ items, it' ∈ expandOne it := by
  have h' : it' ∈ expandItems items := (sortExpanded_perm items).mem_iff.mp h
  unfold expandItems at h'
  simp only [List.mem_flatten, List.mem_map] at h'
  obtain ⟨l, ⟨it, hit, rfl⟩, hmem⟩ := h'
  exact ⟨it, hit, hmem⟩

/-- The expanded units are processed in weight-descending order, ties broken
by volume descending. -/
theorem sortExpanded_sorted (items : List Item) :
    (sortExpanded items).Pairwise packOrderP :=
  List.sorted_insertionSort packOrderP (expandItems items)

/-! ### First-fit refinement -/

theorem firstFit_cons {c : Container} {item : Item} {po : (Int × Int × Int) × String}
    {rest : List ((Int × Int × Int) × String)} :
    firstFit c item (po :: rest) = (item.set_orientation po.2).bind
      (fun j => (c.is_valid j po.1.1 po.1.2.1 po.1.2.2).bind
        (fun v => if v then pure (some (po.1, po.2, j)) else firstFit c item rest)) := rfl

theorem pairsOf_cons {p : Int × Int × Int} {ps : List (Int × Int × Int)}
    {os : List String} :
    pairsOf (p :: ps) os = (os.map fun o => (p, o)) ++ pairsOf ps os := rfl

theorem firstFit_inner {c : Container} {p : Int × Int × Int} :
    ∀ {os : List String} {item₀ item : Item}, sameMeta item₀ item →
    ((firstFit c item₀ (os.map fun o => (p, o)) = none →
        tryOrientations c p.1 p.2.1 p.2.2 item os = none) ∧
     (∀ q o j, firstFit c item₀ (os.map fun o => (p, o)) = some (some (q, o, j)) →
        q = p ∧ tryOrientations c p.1 p.2.1 p.2.2 item os = some (j, true)) ∧
     (firstFit c item₀ (os.map fun o => (p, o)) = some none →
        ∃ it', tryOrientations c p.1 p.2.1 p.2.2 item os = some (it', false) ∧
          sameMeta item₀ it'))
  | [], item₀, item, hm => by
      refine ⟨fun h => by simp [firstFit] at h, fun q o j h => by simp [firstFit] at h,
        fun _ => ⟨item, rfl, hm⟩⟩
  | o₁ :: os, item₀, item, hm => by
      have hso₀ : item₀.set_orientation o₁ = item.set_orientation o₁ :=
        set_orientation_congr hm o₁
      simp only [List.map_cons]
      rw [firstFit_cons, tryOrientations_cons]
      rcases hso : item.set_orientation o₁ with _ | j₁
      · rw [hso] at hso₀
        rw [hso₀]
        simp
      · rw [hso] at hso₀
        rw [hso₀]
        simp only [Option.some_bind]
        rcases hv : c.is_valid j₁ p.1 p.2.1 p.2.2 with _ | v
        · simp only [Option.none_bind]
          simp
        · simp only [Option.some_bind]
          rcases v with _ | _
          · simp only [Bool.false_eq_true, if_false]
            exact firstFit_inner (sameMeta_trans hm (set_orientation_sameMeta hso))
          · simp only [if_true, Option.pure_def]
            refine ⟨fun h => by simp at h, fun q o j h => ?_, fun h => by simp at h⟩
            simp only [Option.some_inj, Prod.mk.injEq] at h
            obtain ⟨rfl, rfl, rfl⟩ := h
            exact ⟨rfl, rfl⟩

theorem firstFit_append {c : Container} {item : Item} :
    ∀ {l₁ l₂ : List ((Int × Int × Int) × String)},
    firstFit c item (l₁ ++ l₂) = (firstFit c item l₁).bind
      (fun r => match r with
        | some v => some (some v)
        | none => firstFit c item l₂)
  | [], l₂ => by simp [firstFit]
  | po :: l₁, l₂ => by
      rw [List.cons_append, firstFit_cons, firstFit_cons]
      rcases hso : item.set_orientation po.2 with _ | j
      · simp
      · simp only [Option.some_bind]
        rcases hv : c.is_valid j po.1.1 po.1.2.1 po.1.2.2 with _ | v
        · simp
        · simp only [Option.some_bind]
          rcases v with _ | _
          · simp only [Bool.false_eq_true, if_false]
            exact firstFit_append
          · simp [Option.pure_def]

theorem tryPositions_firstFit {c : Container} :
    ∀ {ps : List (Int × Int × Int)} {item₀ item : Item}, sameMeta item₀ item →
    ((firstFit c item₀ (pairsOf ps item₀.orientation_preference) = none →
        tryPositions c item ps = none) ∧
     (∀ p o j, firstFit c item₀ (pairsOf ps item₀.orientation_preference) =
          some (some (p, o, j)) →
        tryPositions c item ps =
          some ((c.add_item j p.1 p.2.1 p.2.2).1, (c.add_item j p.1 p.2.1 p.2.2).2, true)) ∧
     (firstFit c item₀ (pairsOf ps item₀.orientation_preference) = some none →
        ∃ it', tryPositions c item ps = some (c, it', false)))
  | [], item₀, item, hm => by
      refine ⟨fun h => by simp [pairsOf, firstFit] at h,
        fun p o j h => by simp [pairsOf, firstFit] at h,
        fun _ => ⟨item, rfl⟩⟩
  | p :: ps, item₀, item, hm => by
      have hpref : item₀.orientation_preference = item.orientation_preference :=
        hm.2.2.2.2.2.1
      rw [pairsOf_cons, firstFit_append, tryPositions_cons]
      obtain ⟨hnone, hfound, hmiss⟩ :=
        @firstFit_inner c p item₀.orientation_preference _ _ hm
      rcases hif : firstFit c item₀ (List.map (fun o => (p, o))
          item₀.orientation_preference) with _ | r
      · have := hnone hif
        rw [← hpref, this]
        simp
      · simp only [Option.some_bind]
        rcases r with _ | ⟨q, o, j⟩
        · obtain ⟨it₁, hto, hm₁⟩ := hmiss hif
          rw [← hpref, hto]
          simp only [Option.some_bind]
          exact tryPositions_firstFit hm₁
        · obtain ⟨rfl, hto⟩ := hfound q o j hif
          rw [← hpref, hto]
          simp only [Option.some_bind]
          refine ⟨fun h => by simp at h, fun p' o' j' h => ?_, fun h => by simp at h⟩
          simp only [Option.some_inj] at h
          obtain ⟨rfl, rfl, rfl⟩ : q = p' ∧ o = o' ∧ j = j' := by
            simpa [Prod.ext_iff] using h
          rfl

theorem packItem_weight {c : Container} {item : Item} {r : Container × Item × Bool}
    (h : packItem c item = some r)
    (hsum : c.current_weight = (c.items.map Item.weight).sum) :
    r.1.current_weight = (r.1.items.map Item.weight).sum ∧
    (r.1 = c ∨ r.1.current_weight ≤ r.1.max_weight) := by
  obtain ⟨ps, -, hcase⟩ := packItem_cases h
  rcases hcase with ⟨-, hc, -⟩ | ⟨-, x, y, z, j, -, -, hv, hr⟩
  · rw [hc]
    exact ⟨hsum, Or.inl rfl⟩
  · obtain ⟨-, -, -, hw, -⟩ := is_valid_true_elim hv
    subst hr
    constructor
    · rw [add_item_items, add_item_weight, hsum]
      simp
    · refine Or.inr ?_
      rw [add_item_weight, add_item_frame.2.2.2]
      exact hw

/-! ### Claim theorems -/

/-- C1: for every container produced by a run of `pack`, every placed unit
carries a position and, for every pair of distinct placed units, their
axis-aligned bounding boxes (position plus active dimensions) are disjoint in
3D — no pair overlaps on all three axes simultaneously. -/
theorem claim1_pack_pairwise_disjoint (L W H mw : Int) (items : List Item)
    (c : Container) (l : List Item) (h : pack L W H mw items = some (c, l)) :
    (∀ it ∈ c.items, it.position.isSome) ∧ c.items.Pairwise PlacedDisjoint := by
  unfold pack at h
  obtain ⟨hinv, -⟩ := packLoop_inv h (packInv_init L W H mw)
  exact ⟨hinv.pos_some, hinv.disj⟩

/-- Witness for C1: the concrete run placing `itemA` in a 100³ container. -/
theorem claim1_witness :
    (∀ it ∈ contA.items, it.position.isSome) ∧ contA.items.Pairwise PlacedDisjoint :=
  claim1_pack_pairwise_disjoint 100 100 100 1000 [itemA] contA [unitA] (by decide)

/-- C2 counterexample: on an item with a negative nominal dimension the
engine places a unit at the negative coordinate (-5, 0, 0), so the claim's
`position ≥ (0,0,0)` part fails as stated (the claim assumes nothing about
dimension signs). -/
theorem claim2_counterexample :
    ¬ (∀ c l, pack 100 100 100 1000 [negItem] = some (c, l) →
        ∀ it ∈ c.items, ∀ x y z, it.position = some (x, y, z) →
          0 ≤ x ∧ 0 ≤ y ∧ 0 ≤ z) := by
  intro hclaim
  have h := hclaim contN [negUnit1, negUnit2] (by decide) negUnit2 (by decide)
    (-5) 0 0 (by decide)
  exact absurd h.1 (by decide)

/-- C2 (amended): provided every item's nominal dimensions are positive, every
placed unit of a `pack` run satisfies `position ≥ (0,0,0)` and
`position + active_dimensions ≤ container dimensions` componentwise. -/
theorem claim2_in_bounds (L W H mw : Int) (items : List Item)
    (hdims : ∀ it ∈ items, 0 < it.original_dims.1 ∧ 0 < it.original_dims.2.1 ∧
      0 < it.original_dims.2.2)
    (c : Container) (l : List Item) (h : pack L W H mw items = some (c, l)) :
    c.length = L ∧ c.width = W ∧ c.height = H ∧
    ∀ it ∈ c.items, ∀ x y z, it.position = some (x, y, z) →
      (0 ≤ x ∧ 0 ≤ y ∧ 0 ≤ z) ∧
      x + it.length ≤ L ∧ y + it.width ≤ W ∧ z + it.height ≤ H := by
  unfold pack at h
  obtain ⟨hinv, hL, hW, hH, -⟩ := packLoop_inv h (packInv_init L W H mw)
  have hn : NonnegState c := by
    refine packLoop_nonneg h ?_ ?_
    · intro it' hit'
      obtain ⟨it, hit, hexp⟩ := sortExpanded_mem hit'
      obtain ⟨hod, -⟩ := expandOne_mem hexp
      obtain ⟨h1, h2, h3⟩ := hdims it hit
      rw [hod]
      exact ⟨le_of_lt h1, le_of_lt h2, le_of_lt h3⟩
    · intro it hit
      simp [Container.init] at hit
  simp only [Container.init] at hL hW hH
  refine ⟨hL, hW, hH, ?_⟩
  intro it hit x y z hp
  obtain ⟨hb1, hb2, hb3⟩ := hinv.in_bounds it hit x y z hp
  obtain ⟨-, -, -, hxyz⟩ := hn it hit
  exact ⟨hxyz x y z hp, by omega, by omega, by omega⟩

/-- Witness for the amended C2: the concrete `itemA` run. -/
theorem claim2_witness :
    contA.length = 100 ∧ contA.width = 100 ∧ contA.height = 100 ∧
    ∀ it ∈ contA.items, ∀ x y z, it.position = some (x, y, z) →
      (0 ≤ x ∧ 0 ≤ y ∧ 0 ≤ z) ∧
      x + it.length ≤ 100 ∧ y + it.width ≤ 100 ∧ z + it.height ≤ 100 :=
  claim2_in_bounds 100 100 100 1000 [itemA] (by decide) contA [unitA] (by decide)

/-- C3 counterexample: on a container with negative `max_weight` and an empty
item list (so every item weight is vacuously positive), the produced
container has `current_weight = 0 > max_weight = -1`; the claim as stated
assumes nothing about the sign of `max_weight`. -/
theorem claim3_counterexample :
    ¬ (∀ c l, (∀ it ∈ ([] : List Item), 0 < it.weight) →
        pack 100 100 100 (-1) [] = some (c, l) →
        c.current_weight = (c.items.map Item.weight).sum ∧
        c.current_weight ≤ c.max_weight) := by
  intro hclaim
  have h := hclaim (Container.init 100 100 100 (-1)) [] (by simp) (by decide)
  exact absurd h.2 (by decide)

/-- C3 (amended): provided `max_weight` is nonnegative (all item weights
positive as in the claim), the produced container's `current_weight` equals
the sum of its placed units' weights and never exceeds `max_weight`; and at
every intermediate step, placing one unit preserves the sum property and
either leaves the container untouched or lands at a weight within the limit
(the weight check gates the only mutator). -/
theorem claim3_weight (L W H mw : Int) (items : List Item)
    (_hw : ∀ it ∈ items, 0 < it.weight) (hmw : 0 ≤ mw)
    (c : Container) (l : List Item) (h : pack L W H mw items = some (c, l)) :
    (c.current_weight = (c.items.map Item.weight).sum ∧
     c.current_weight ≤ c.max_weight ∧ c.max_weight = mw) ∧
    (∀ (c₀ : Container) (item : Item) (r : Container × Item × Bool),
      packItem c₀ item = some r →
      c₀.current_weight = (c₀.items.map Item.weight).sum →
      r.1.current_weight = (r.1.items.map Item.weight).sum ∧
      (r.1 = c₀ ∨ r.1.current_weight ≤ r.1.max_weight)) := by
  refine ⟨?_, fun c₀ item r hr hsum => packItem_weight hr hsum⟩
  unfold pack at h
  obtain ⟨hinv, -, -, -, hM⟩ := packLoop_inv h (packInv_init L W H mw)
  simp only [Container.init] at hM
  exact ⟨hinv.weight_sum, hinv.weight_le (by omega), hM⟩

/-- Witness for the amended C3: the concrete `itemA` run, and one concrete
placement step. -/
theorem claim3_witness :
    (contA.current_weight = (contA.items.map Item.weight).sum ∧
     contA.current_weight ≤ contA.max_weight ∧ contA.max_weight = 1000) ∧
    (∀ (c₀ : Container) (item : Item) (r : Container × Item × Bool),
      packItem c₀ item = some r →
      c₀.current_weight = (c₀.items.map Item.weight).sum →
      r.1.current_weight = (r.1.items.map Item.weight).sum ∧
      (r.1 = c₀ ∨ r.1.current_weight ≤ r.1.max_weight)) :=
  claim3_weight 100 100 100 1000 [itemA] (by decide) (by decide) contA [unitA] (by decide)

/-- C4: on a container whose placed items all carry positions, `is_valid`
returns `True` exactly when the bounds checks (using the active dimensions),
the weight check, and pairwise disjointness against each placed unit all
hold, disjointness being the six-way disjunction of the claim; moreover each
earlier check failing forces `False` regardless of the later checks
(fail-fast order). -/
theorem claim4_is_valid (c : Container) (item : Item) (x y z : Int)
    (hpos : ∀ it ∈ c.items, it.position.isSome) :
    (c.is_valid item x y z = some true ↔
      (x + item.length ≤ c.length ∧ y + item.width ≤ c.width ∧
       z + item.height ≤ c.height ∧
       c.current_weight + item.weight ≤ c.max_weight ∧
       ∀ other ∈ c.items, ∀ px py pz, other.position = some (px, py, pz) →
         (x + item.length ≤ px ∨ px + other.length ≤ x ∨
          y + item.width ≤ py ∨ py + other.width ≤ y ∨
          z + item.height ≤ pz ∨ pz + other.height ≤ z))) ∧
    (x + item.length > c.length → c.is_valid item x y z = some false) ∧
    (y + item.width > c.width → c.is_valid item x y z = some false) ∧
    (z + item.height > c.height → c.is_valid item x y z = some false) ∧
    (c.current_weight + item.weight > c.max_weight →
      c.is_valid item x y z = some false) := by
  refine ⟨?_, is_valid_bound_x, is_valid_bound_y, is_valid_bound_z, is_valid_weight⟩
  rw [is_valid_true_iff hpos]
  unfold ValidPlacement boxesDisjoint
  exact Iff.rfl

/-- Witness for C4: the concrete container `contA` and a probe of a second
50×50×50 box at (50, 0, 0). -/
theorem claim4_witness :
    (contA.is_valid itemA 50 0 0 = some true ↔
      (50 + itemA.length ≤ contA.length ∧ 0 + itemA.width ≤ contA.width ∧
       0 + itemA.height ≤ contA.height ∧
       contA.current_weight + itemA.weight ≤ contA.max_weight ∧
       ∀ other ∈ contA.items, ∀ px py pz, other.position = some (px, py, pz) →
         (50 + itemA.length ≤ px ∨ px + other.length ≤ 50 ∨
          0 + itemA.width ≤ py ∨ py + other.width ≤ 0 ∨
          0 + itemA.height ≤ pz ∨ pz + other.height ≤ 0))) ∧
    (50 + itemA.length > contA.length → contA.is_valid itemA 50 0 0 = some false) ∧
    (0 + itemA.width > contA.width → contA.is_valid itemA 50 0 0 = some false) ∧
    (0 + itemA.height > contA.height → contA.is_valid itemA 50 0 0 = some false) ∧
    (contA.current_weight + itemA.weight > contA.max_weight →
      contA.is_valid itemA 50 0 0 = some false) :=
  claim4_is_valid contA itemA 50 0 0 (by decide)

/-- C5: on a container whose placed items carry positions,
`generate_positions` succeeds and returns exactly the set `{(0,0,0)}` united
with the three extreme corners of every placed unit, duplicates collapsed,
sorted by the key (x ascending, z ascending, y ascending); and the placement
loop recomputes it fresh from the container state for each unit's search. -/
theorem claim5_generate_positions (c : Container)
    (hpos : ∀ it ∈ c.items, it.position.isSome) :
    (∃ ps, generate_positions c = some ps ∧
      (∀ p, p ∈ ps ↔ (p = (0, 0, 0) ∨ ∃ it ∈ c.items, isCornerOf p it)) ∧
      ps.Pairwise posKeyLE ∧ ps.Nodup) ∧
    (∀ item, packItem c item =
      (generate_positions c).bind fun ps => tryPositions c item ps) :=
  ⟨generate_positions_eq hpos, fun _ => packItem_eq⟩

/-- Witness for C5: the concrete container `contA`. -/
theorem claim5_witness :
    (∃ ps, generate_positions contA = some ps ∧
      (∀ p, p ∈ ps ↔ (p = (0, 0, 0) ∨ ∃ it ∈ contA.items, isCornerOf p it)) ∧
      ps.Pairwise posKeyLE ∧ ps.Nodup) ∧
    (∀ item, packItem contA item =
      (generate_positions contA).bind fun ps => tryPositions contA item ps) :=
  claim5_generate_positions contA (by decide)

/-- C6: the engine processes the expanded units sorted descending by
(weight, volume) — a permutation of the expansion, heaviest first, ties by
larger volume; for each unit it searches candidate positions in order and,
within each, the orientation list in order, committing at the first valid
(position, orientation) pair (refinement against the spec-modelled
`firstFit`); a unit with no valid pair leaves the search with `placed =
false` and the loop proceeds to the next unit with no fault. -/
theorem claim6_first_fit :
    (∀ (L W H mw : Int) (items : List Item),
      pack L W H mw items = packLoop (Container.init L W H mw) (sortExpanded items)) ∧
    (∀ items : List Item, (sortExpanded items).Pairwise packOrderP ∧
      List.Perm (sortExpanded items) (expandItems items)) ∧
    (∀ (c : Container) (item : Item),
      packItem c item = (generate_positions c).bind fun ps => tryPositions c item ps) ∧
    (∀ (c : Container) (item : Item) (ps : List (Int × Int × Int)),
      (firstFit c item (pairsOf ps item.orientation_preference) = none →
        tryPositions c item ps = none) ∧
      (∀ p o j, firstFit c item (pairsOf ps item.orientation_preference) =
          some (some (p, o, j)) →
        tryPositions c item ps =
          some ((c.add_item j p.1 p.2.1 p.2.2).1,
            (c.add_item j p.1 p.2.1 p.2.2).2, true)) ∧
      (firstFit c item (pairsOf ps item.orientation_preference) = some none →
        ∃ it', tryPositions c item ps = some (c, it', false))) ∧
    (∀ (c : Container) (item : Item) (rest : List Item),
      packLoop c (item :: rest) = (packItem c item).bind
        (fun r => (packLoop r.1 rest).bind fun s => pure (s.1, r.2.1 :: s.2))) :=
  ⟨fun _ _ _ _ _ => rfl,
   fun items => ⟨sortExpanded_sorted items, sortExpanded_perm items⟩,
   fun _ _ => packItem_eq,
   fun _ item _ => tryPositions_firstFit (sameMeta_refl item),
   fun _ _ _ => packLoop_cons⟩

/-- Witness for C6: the `itemA` run's loop shape, its sorted expansion, and a
concrete failed first-fit search (the too-heavy `wItem`) that terminates with
`placed = false` on the unchanged container. -/
theorem claim6_witness :
    pack 100 100 100 1000 [itemA] =
      packLoop (Container.init 100 100 100 1000) (sortExpanded [itemA]) ∧
    (sortExpanded [itemA]).Pairwise packOrderP ∧
    ∃ it', tryPositions (Container.init 50 50 50 5) wItem [(0, 0, 0)] =
      some (Container.init 50 50 50 5, it', false) :=
  ⟨claim6_first_fit.1 100 100 100 1000 [itemA],
   (claim6_first_fit.2.1 [itemA]).1,
   (claim6_first_fit.2.2.2.1 (Container.init 50 50 50 5) wItem [(0, 0, 0)]).2.2
     (by decide)⟩

/-- All six permutations of a triple, against the nominal order. -/
theorem perm3_cases (a b c : Int) :
    List.Perm [a, b, c] [a, b, c] ∧ List.Perm [a, c, b] [a, b, c] ∧
    List.Perm [b, a, c] [a, b, c] ∧ List.Perm [b, c, a] [a, b, c] ∧
    List.Perm [c, a, b] [a, b, c] ∧ List.Perm [c, b, a] [a, b, c] := by
  refine ⟨List.Perm.refl _, ?_, ?_, ?_, ?_, ?_⟩
  · exact List.Perm.cons a (List.Perm.swap b c [])
  · exact List.Perm.swap a b [c]
  · exact (List.Perm.cons b (List.Perm.swap a c [])).trans (List.Perm.swap a b [c])
  · exact (List.Perm.swap a c [b]).trans (List.Perm.cons a (List.Perm.swap b c []))
  · exact (List.Perm.swap b c [a]).trans
      ((List.Perm.cons b (List.Perm.swap a c [])).trans (List.Perm.swap a b [c]))

/-- C7 counterexample: malformed input reaches the engine unrejected: an
empty orientation-preference list is silently coerced to `["lwh"]` at item
construction, a negative dimension flows through a full run and gets both
units placed, and a zero quantity silently expands to an empty run — no
validation error of any kind precedes the placement loop. -/
theorem claim7_counterexample :
    (Item.init "e" 5 5 5 5 1 (some []) false true true "box" "red").orientation_preference
      = ["lwh"] ∧
    ((pack 100 100 100 1000 [negItem]).map fun r => r.1.items.length) = some 2 ∧
    ((pack 100 100 100 1000
        [Item.init "q" 5 5 5 5 0 none false true true "box" "red"]).map
      fun r => r.1.items.length) = some 0 :=
  ⟨rfl, by decide, by decide⟩

/-- C7 (amended): the engine performs no input validation: an empty (or
absent) orientation-preference list is silently coerced to `["lwh"]`; a
non-positive quantity silently expands to zero units; an orientation code
outside the six-code set is only detected when it is used inside the search
(the dictionary lookup fails there, not in any prior validation step); and
non-positive dimensions or weights enter the search unrejected. -/
theorem claim7_no_validation :
    (∀ (name : String) (l w h wt q : Int) (fr cs cst : Bool) (ty col : String),
      (Item.init name l w h wt q (some []) fr cs cst ty col).orientation_preference
        = ["lwh"] ∧
      (Item.init name l w h wt q none fr cs cst ty col).orientation_preference
        = ["lwh"]) ∧
    (∀ it : Item, it.quantity ≤ 0 → expandOne it = []) ∧
    (∀ (it : Item) (o : String),
      o ∉ (["lwh", "lhw", "wlh", "whl", "hlw", "hwl"] : List String) →
      it.get_dimensions o = none) ∧
    ((pack 100 100 100 1000 [negItem]).map fun r => r.1.items.length) = some 2 := by
  refine ⟨fun name l w h wt q fr cs cst ty col => ⟨rfl, rfl⟩, ?_, ?_, by decide⟩
  · intro it hq
    unfold expandOne
    rw [Int.toNat_of_nonpos hq]
    rfl
  · intro it o ho
    unfold Item.get_dimensions
    split_ifs with h1 h2 h3 h4 h5 h6 <;> simp_all

/-- Witness for the amended C7: a concrete coerced item, a concrete
non-positive quantity, and a concrete invalid orientation code. -/
theorem claim7_witness :
    (Item.init "w" 1 2 3 4 5 (some []) false true true "box" "red").orientation_preference
      = ["lwh"] ∧
    expandOne (Item.init "w" 1 2 3 4 (-1) none false true true "box" "red") = [] ∧
    (Item.init "w" 1 2 3 4 5 none false true true "box" "red").get_dimensions "xyz"
      = none :=
  ⟨(claim7_no_validation.1 "w" 1 2 3 4 5 false true true "box" "red").1,
   claim7_no_validation.2.1 _ (by decide),
   claim7_no_validation.2.2.1 _ "xyz" (by decide)⟩

/-- C8: `get_dimensions` maps the six (pairwise distinct) orientation codes to
exactly the six permutations of the nominal (length, width, height) triple —
each image is a permutation of the nominal triple — and `get_volume` is the
product of the nominal dimensions, unchanged by `set_orientation`. -/
theorem claim8_orientations (it : Item) :
    ((["lwh", "lhw", "wlh", "whl", "hlw", "hwl"] : List String).map it.get_dimensions =
      [some (it.original_dims.1, it.original_dims.2.1, it.original_dims.2.2),
       some (it.original_dims.1, it.original_dims.2.2, it.original_dims.2.1),
       some (it.original_dims.2.1, it.original_dims.1, it.original_dims.2.2),
       some (it.original_dims.2.1, it.original_dims.2.2, it.original_dims.1),
       some (it.original_dims.2.2, it.original_dims.1, it.original_dims.2.1),
       some (it.original_dims.2.2, it.original_dims.2.1, it.original_dims.1)]) ∧
    (∀ o d, it.get_dimensions o = some d →
      List.Perm [d.1, d.2.1, d.2.2]
        [it.original_dims.1, it.original_dims.2.1, it.original_dims.2.2]) ∧
    (∀ o j, it.set_orientation o = some j → j.get_volume = it.get_volume) ∧
    it.get_volume = it.original_dims.1 * it.original_dims.2.1 * it.original_dims.2.2 ∧
    (["lwh", "lhw", "wlh", "whl", "hlw", "hwl"] : List String).Nodup := by
  refine ⟨rfl, ?_, ?_, rfl, by decide⟩
  · intro o d h
    unfold Item.get_dimensions at h
    split_ifs at h <;> (simp only [Option.some_inj] at h; subst h)
    · exact (perm3_cases _ _ _).1
    · exact (perm3_cases _ _ _).2.1
    · exact (perm3_cases _ _ _).2.2.1
    · exact (perm3_cases _ _ _).2.2.2.1
    · exact (perm3_cases _ _ _).2.2.2.2.1
    · exact (perm3_cases _ _ _).2.2.2.2.2
  · intro o j h
    obtain ⟨d, -, rfl⟩ := set_orientation_eq_some h
    rfl

/-- Witness for C8: the item with nominal dimensions (1, 2, 3). -/
theorem claim8_witness :
    itemP.get_dimensions "wlh" = some (2, 1, 3) ∧
    List.Perm [(2 : Int), 1, 3]
      [itemP.original_dims.1, itemP.original_dims.2.1, itemP.original_dims.2.2] ∧
    itemP.get_volume =
      itemP.original_dims.1 * itemP.original_dims.2.1 * itemP.original_dims.2.2 :=
  ⟨by decide, (claim8_orientations itemP).2.1 "wlh" (2, 1, 3) (by decide),
   (claim8_orientations itemP).2.2.2.1⟩

/-- C9: the engine is deterministic: it is a pure function of its input, and
the only set-ordering in the algorithm (the candidate-position set) sorts to
the same sequence under any enumeration order of the set, because the sort
key (x, z, y) is injective on distinct positions. -/
theorem claim9_deterministic :
    (∀ (L W H mw : Int) (items : List Item),
      pack L W H mw items = pack L W H mw items) ∧
    (∀ l₁ l₂ : List (Int × Int × Int), List.Perm l₁ l₂ →
      sortPositions l₁ = sortPositions l₂) :=
  ⟨fun _ _ _ _ _ => rfl, fun _ _ h => sortPositions_perm h⟩

/-- Witness for C9: two enumeration orders of the same two-candidate set. -/
theorem claim9_witness :
    sortPositions [(1, 0, 0), (0, 0, 0)] = sortPositions [(0, 0, 0), (1, 0, 0)] :=
  claim9_deterministic.2 _ _ (by decide)

/-- C10: when the search for a unit fails, the container is unchanged (the
unit is not appended and `current_weight` is untouched), the unit's position
field is unchanged (so still unset when it started unset), but the unit is
not restored: its rotation code is the last orientation tried — the last
entry of its preference list — and its active dimensions are that
orientation's projection of the nominal triple. -/
theorem claim10_failure_frame (c c' : Container) (item it' : Item)
    (h : packItem c item = some (c', it', false)) :
    c' = c ∧ it'.position = item.position ∧ it'.weight = item.weight ∧
    it'.original_dims = item.original_dims ∧
    (item.orientation_preference = [] → it' = item) ∧
    (∀ o, item.orientation_preference.getLast? = some o →
      it'.rotation = some o ∧
      item.get_dimensions o = some (it'.length, it'.width, it'.height) ∧
      item.set_orientation o = some it') := by
  obtain ⟨hc, hm, hemp, hlast⟩ := packItem_failure h
  refine ⟨hc, (hm.2.2.2.2.2.2.2.2.2.1).symm, (hm.2.2.2.1).symm, (hm.2.2.1).symm,
    hemp, ?_⟩
  intro o ho
  have hso := hlast o ho
  obtain ⟨d, hgd, hj⟩ := set_orientation_eq_some hso
  subst hj
  exact ⟨rfl, by rw [hgd], hso⟩

/-- Witness for C10: the too-heavy `wItem` fails in the small test container
and is left with rotation "lhw" (the last orientation tried) and no
position. -/
theorem claim10_witness :
    Container.init 50 50 50 5 = Container.init 50 50 50 5 ∧
    wUnitAfter.position = wItem.position ∧ wUnitAfter.weight = wItem.weight ∧
    wUnitAfter.original_dims = wItem.original_dims ∧
    (wItem.orientation_preference = [] → wUnitAfter = wItem) ∧
    (∀ o, wItem.orientation_preference.getLast? = some o →
      wUnitAfter.rotation = some o ∧
      wItem.get_dimensions o = some (wUnitAfter.length, wUnitAfter.width,
        wUnitAfter.height) ∧
      wItem.set_orientation o = some wUnitAfter) :=
  claim10_failure_frame (Container.init 50 50 50 5) (Container.init 50 50 50 5)
    wItem wUnitAfter (by decide)
